import Mathlib

/-
Verification development for the py2mint call-interception and
argument-transformation library (src/py2mint/deco.py).

The Python source is shallowly embedded as follows.

Argument machinery: a declared parameter is a name together with an optional
default value; a Python-level function value (PyFunc) carries its
introspectable parameter list (what inspect.signature returns, preserved by
functools.wraps) and a raw calling operation taking positional arguments and
keyword arguments.  Fallible operations (a TypeError raised during binding, a
KeyError during a lookup, a missing required argument, an error raised by a
body) are modelled with Option: none is an uncaught Python exception.

collectBoundArgs and bindCallArgs model
inspect.signature(func).bind_partial(*args, **kwargs).arguments: positional
arguments are matched to the leading parameters in declaration order, the
remaining parameters take their values from the keyword arguments, again in
declaration order, and NO defaults are filled in.  Binding fails (TypeError)
when there are more positional arguments than parameters, when a keyword does
not name a parameter, or when a keyword names a parameter already bound
positionally.  applyDefaults models the completion a real call performs:
every declared parameter must end up with a value, defaults filling the gaps.
-/

/-- A declared parameter of a Python callable: a name plus an optional
default value, as obtained by signature introspection. -/
structure Param (V : Type) where
  name : String
  default : Option V
deriving DecidableEq

/-- The declared parameter names, in declaration order. -/
def paramNames {V : Type} (ps : List (Param V)) : List String :=
  ps.map Param.name

/-- The ordered name-to-value mapping produced by bind_partial: positional
arguments bind the leading parameters, then the remaining parameters are
looked up among the keyword arguments, all in declaration order.  Parameters
bound by neither are absent; defaults are NOT consulted. -/
def collectBoundArgs {V : Type} : List (Param V) → List V → List (String × V) → List (String × V)
  | [], _, _ => []
  | p :: ps, a :: as, kwargs => (p.name, a) :: collectBoundArgs ps as kwargs
  | p :: ps, [], kwargs =>
    match List.lookup p.name kwargs with
    | some v => (p.name, v) :: collectBoundArgs ps [] kwargs
    | none => collectBoundArgs ps [] kwargs

/-- Model of inspect.signature(func).bind_partial(*args, **kwargs).arguments.
Returns none exactly when Python would raise a TypeError: too many positional
arguments, an unexpected keyword, or a keyword duplicating a positional
binding. -/
def bindCallArgs {V : Type} (ps : List (Param V)) (args : List V) (kwargs : List (String × V)) :
    Option (List (String × V)) :=
  if args.length ≤ ps.length
      ∧ (∀ kv ∈ kwargs, kv.1 ∈ paramNames ps)
      ∧ (∀ kv ∈ kwargs, kv.1 ∉ paramNames (ps.take args.length))
  then some (collectBoundArgs ps args kwargs)
  else none

/-- Completing a binding when the call actually runs: every declared
parameter takes its bound value or, failing that, its declared default; a
parameter with neither makes the call fail (TypeError: missing argument). -/
def applyDefaults {V : Type} (ps : List (Param V)) (bound : List (String × V)) :
    Option (List (String × V)) :=
  ps.mapM (fun p =>
    match List.lookup p.name bound with
    | some v => some (p.name, v)
    | none => p.default.map (fun dv => (p.name, dv)))

/-- Full binding of a call f(*args, **kwargs): partial binding followed by
default application. -/
def fullBindArgs {V : Type} (ps : List (Param V)) (args : List V) (kwargs : List (String × V)) :
    Option (List (String × V)) :=
  match bindCallArgs ps args kwargs with
  | some bound => applyDefaults ps bound
  | none => none

/-- A Python callable as the wrapping layer sees it: its introspectable
declared parameter list (functools.wraps propagates it through wrapping)
together with its raw call behaviour on positional plus keyword arguments. -/
structure PyFunc (V : Type) where
  params : List (Param V)
  call : List V → List (String × V) → Option V

/-- A plain def: its call behaviour is full binding of the declared
parameters followed by running the body on the complete environment. -/
def PyFunc.ofBody {V : Type} (ps : List (Param V)) (body : List (String × V) → Option V) :
    PyFunc V :=
  ⟨ps, fun args kwargs =>
    match fullBindArgs ps args kwargs with
    | some env => body env
    | none => none⟩

/-- Embedding of mk_args_kwargs_merger (deco.py lines 6-38): the merging
function returns bind_partial arguments when positional arguments are
present, and returns the keyword dict unchanged otherwise. -/
def mk_args_kwargs_merger {V : Type} (func : PyFunc V) :
    List V → List (String × V) → Option (List (String × V)) :=
  fun args kwargs =>
    if 0 < args.length then bindCallArgs func.params args kwargs else some kwargs

/-- Python dict assignment d[k] = v on an insertion-ordered dict: replace the
value in place when the key is present, append otherwise. -/
def setEntry {A : Type} : List (String × A) → String → A → List (String × A)
  | [], k, v => [(k, v)]
  | (k1, w) :: rest, k, v =>
    if k1 = k then (k1, v) :: rest else (k1, w) :: setEntry rest k v

/-- The transformation loop of transform_args (deco.py lines 297-298): for
each argname in the specification, read the current value (KeyError, hence
none, when absent) and assign the transformed value back. -/
def applyTransforms {V : Type} : List (String × (V → V)) → List (String × V) → Option (List (String × V))
  | [], m => some m
  | (name, tf) :: rest, m =>
    match List.lookup name m with
    | none => none
    | some v => applyTransforms rest (setEntry m name (tf v))

/-- Embedding of transform_args (deco.py lines 237-304).  With an empty
specification the original function itself is returned.  Otherwise the
wrapper merges the call into a name-to-value dict exactly as the merger does,
applies each transform, and invokes the original in keyword-only form.
functools.wraps keeps the declared parameter list. -/
def transform_args {V : Type} (trans_func_for_arg : List (String × (V → V))) (func : PyFunc V) :
    PyFunc V :=
  if trans_func_for_arg.isEmpty then func
  else
    ⟨func.params, fun args kwargs =>
      match (if 0 < args.length then bindCallArgs func.params args kwargs else some kwargs) with
      | none => none
      | some val_of_argname =>
        match applyTransforms trans_func_for_arg val_of_argname with
        | none => none
        | some transformed => func.call [] transformed⟩

-- Concrete instances used by several claims: the doctest function
-- f(a, b, c=3) = a * (b + c).

/-- Parameter list of the doctest function f(a, b, c=3). -/
def exParams : List (Param Int) := [⟨"a", none⟩, ⟨"b", none⟩, ⟨"c", some 3⟩]

/-- Body of the doctest function: a * (b + c). -/
def exBody : List (String × Int) → Option Int := fun env =>
  match List.lookup "a" env, List.lookup "b" env, List.lookup "c" env with
  | some a, some b, some c => some (a * (b + c))
  | _, _, _ => none

/-- The doctest function f(a, b, c=3) = a * (b + c) as a PyFunc. -/
def exF : PyFunc Int := PyFunc.ofBody exParams exBody

/-- Embedding of wrap_method_output (deco.py lines 307-315): the wrapped
method takes self as its first positional argument, forwards the whole call,
and maps wrapper_func over the returned value.  An error in the call
propagates; a call without the positional receiver is a TypeError. -/
def wrap_method_output {V : Type} (wrapper_func : V → V) (wrapped : PyFunc V) : PyFunc V :=
  ⟨wrapped.params, fun args kwargs =>
    match args with
    | [] => none
    | selfv :: rest => (wrapped.call (selfv :: rest) kwargs).map wrapper_func⟩

/-- A per-method transform specification: argument-name keyed transforms plus
the reserved method_output_trans entry. -/
structure TransSpec (V : Type) where
  arg_trans : List (String × (V → V))
  method_output_trans : Option (V → V)

/-- Embedding of mk_input_and_output_method_wrapper (deco.py lines 402-410):
transform_args for the argument transforms, then optionally
wrap_method_output for the output transform. -/
def mk_input_and_output_method_wrapper {V : Type} (spec : TransSpec V) (method_func : PyFunc V) :
    PyFunc V :=
  let wrapped_method := transform_args spec.arg_trans method_func
  match spec.method_output_trans with
  | some t => wrap_method_output t wrapped_method
  | none => wrapped_method

/-
Class model.  A Python class object is a name, a list of base-class
references and an attribute dict.  Classes live on a heap (a list of class
objects indexed by position) because wrap_class_methods mutates class objects
through setattr: operations take and return the heap.  M is the type of
attribute values (methods).
-/

/-- A class object: name, base classes (by reference) and attribute dict. -/
structure PyClassObj (M : Type) where
  name : String
  bases : List Nat
  dict : List (String × M)
deriving DecidableEq

/-- The heap of class objects; a reference is an index. -/
abbrev Heap (M : Type) := List (PyClassObj M)

/-- getattr on a class reference (no base-class lookup is needed by the
embedded code paths: the wrapped classes carry their methods directly). -/
def getattrH {M : Type} (h : Heap M) (r : Nat) (attr : String) : Option M :=
  match h.get? r with
  | some c => List.lookup attr c.dict
  | none => none

/-- hasattr on a class reference. -/
def hasattrH {M : Type} (h : Heap M) (r : Nat) (attr : String) : Bool :=
  (getattrH h r attr).isSome

/-- setattr on a class reference: replaces the attribute in the class dict
in place (or appends it), mutating the heap cell. -/
def setattrH {M : Type} (h : Heap M) (r : Nat) (attr : String) (v : M) : Heap M :=
  match h.get? r with
  | some c => h.set r ⟨c.name, c.bases, setEntry c.dict attr v⟩
  | none => h

/-- The __name__ of the class at a reference (classes always have one). -/
def classNameAt {M : Type} (h : Heap M) (r : Nat) : String :=
  match h.get? r with
  | some c => c.name
  | none => ""

/-- The replacement loop of wrap_class_methods (deco.py lines 388-396),
exactly as written in the source: existence is tested on the class _cls
(the copy when one was requested), but getattr and setattr act on the
ORIGINAL class cls.  On a missing method it raises
ValueError when the error policy is on, else skips the entry.  The heap is
returned even when an error is raised: mutations performed before the raise
persist. -/
def classWrapperLoop {M : Type} (clsRef dRef : Nat) (raiseErr : Bool) :
    List (String × (M → M)) → Heap M → Heap M × Except String Unit
  | [], h => (h, Except.ok ())
  | (method, wrapper) :: rest, h =>
    if hasattrH h dRef method then
      match getattrH h clsRef method with
      | some v => classWrapperLoop clsRef dRef raiseErr rest (setattrH h clsRef method (wrapper v))
      | none => (h, Except.error ("AttributeError: " ++ method))
    else if raiseErr then
      (h, Except.error (classNameAt h clsRef ++ " has no " ++ method ++ " method!"))
    else
      classWrapperLoop clsRef dRef raiseErr rest h

/-- Embedding of wrap_class_methods (deco.py lines 318-399).  When a copy is
requested, a new class object with the same bases and a snapshot of the
attribute dict is allocated (type with a fresh name), and that copy is what
is returned; the replacement loop then runs as in the source.  The result is
the final heap plus either the reference of the returned class or the raised
error. -/
def wrap_class_methods {M : Type} (return_a_copy_of_the_class raise_error_if_non_existent_method : Bool)
    (wrapper_for_method : List (String × (M → M))) (clsRef : Nat) (h : Heap M) :
    Heap M × Except String Nat :=
  match h.get? clsRef with
  | none => (h, Except.error "invalid class reference")
  | some cls =>
    let h1 := if return_a_copy_of_the_class then h ++ [⟨"_" ++ cls.name, cls.bases, cls.dict⟩] else h
    let dRef := if return_a_copy_of_the_class then h.length else clsRef
    match classWrapperLoop clsRef dRef raise_error_if_non_existent_method wrapper_for_method h1 with
    | (h2, Except.ok _) => (h2, Except.ok dRef)
    | (h2, Except.error e) => (h2, Except.error e)

/-- Embedding of wrap_class_methods_input_and_output (deco.py lines
421-603): builds one wrapper per method from the transform specifications
and delegates to wrap_class_methods.  As in the source (lines 602-603), the
two policy parameters are accepted but NOT forwarded: the call hardcodes
both flags to true. -/
def wrap_class_methods_input_and_output {V : Type}
    (return_a_copy_of_the_class raise_error_if_non_existent_method : Bool)
    (method_trans_spec : List (String × TransSpec V)) (clsRef : Nat) (h : Heap (PyFunc V)) :
    Heap (PyFunc V) × Except String Nat :=
  let wrapper_for_method :=
    method_trans_spec.map (fun mt => (mt.1, fun m => mk_input_and_output_method_wrapper mt.2 m))
  wrap_class_methods true true wrapper_for_method clsRef h

/-
Effectful call model, for the wrapping layers whose contract mentions side
effects (the pre and post transforms of input_output_decorator and the
logging sink of mk_call_logger).  Side effects are modelled as an emitted
event trace: an effectful callable returns the list of events of one call,
in order, together with an Option result.
-/

/-- An effectful Python callable: its __name__ (functools.wraps copies it to
wrappers) and a raw call operation returning an event trace plus a result. -/
structure EffFunc (V E : Type) where
  name : String
  call : List V → List (String × V) → List E × Option V

/-- Embedding of input_output_decorator (deco.py lines 110-193).  Four
branches as in the source: with a preprocess, the wrapper calls
func(preprocess(*args, **kwargs)): the single value preprocess returns
becomes the only positional argument of func.  With a postprocess, the
returned value is mapped (an error from func propagates and skips the
postprocess).  With neither, the original function itself is returned. -/
def input_output_decorator {V E : Type}
    (preprocessF : Option (List V → List (String × V) → List E × V))
    (postprocessF : Option (V → List E × V)) (func : EffFunc V E) : EffFunc V E :=
  match preprocessF, postprocessF with
  | some pre, some post =>
    ⟨func.name, fun args kwargs =>
      let pv := pre args kwargs
      let fr := func.call [pv.2] []
      match fr.2 with
      | none => (pv.1 ++ fr.1, none)
      | some rv => (pv.1 ++ fr.1 ++ (post rv).1, some (post rv).2)⟩
  | some pre, none =>
    ⟨func.name, fun args kwargs =>
      let pv := pre args kwargs
      let fr := func.call [pv.2] []
      (pv.1 ++ fr.1, fr.2)⟩
  | none, some post =>
    ⟨func.name, fun args kwargs =>
      let fr := func.call args kwargs
      match fr.2 with
      | none => (fr.1, none)
      | some rv => (fr.1 ++ (post rv).1, some (post rv).2)⟩
  | none, none => func

/-- The pre-transform semantics CLAIMED by the specification, written from
the words of the spec for comparison with the code: the preprocess receives
the raw (args, kwargs) of a call and returns a new (args, kwargs) pair that
is substituted as the arguments of the underlying call. -/
def input_output_decorator_claimedPre {V E : Type}
    (pre : List V → List (String × V) → List E × (List V × List (String × V)))
    (func : EffFunc V E) : EffFunc V E :=
  ⟨func.name, fun args kwargs =>
    let pv := pre args kwargs
    let fr := func.call pv.2.1 pv.2.2
    (pv.1 ++ fr.1, fr.2)⟩

/-- Embedding of mk_call_logger (deco.py lines 728-795).  The wrapper first
runs logger(what_to_log(func, args, kwargs)) - the events the logger emits -
and then forwards the call unchanged.  In the bounded variant the receiver
is the first positional argument; it is passed to the underlying method but
excluded from what is given to what_to_log. -/
def mk_call_logger {V E A : Type} (logger : A → List E)
    (what_to_log : EffFunc V E → List V → List (String × V) → A)
    (func_is_bounded : Bool) (func : EffFunc V E) : EffFunc V E :=
  if func_is_bounded then
    ⟨func.name, fun args kwargs =>
      match args with
      | [] => ([], none)
      | selfv :: rest =>
        let ev := logger (what_to_log func rest kwargs)
        let fr := func.call (selfv :: rest) kwargs
        (ev ++ fr.1, fr.2)⟩
  else
    ⟨func.name, fun args kwargs =>
      let ev := logger (what_to_log func args kwargs)
      let fr := func.call args kwargs
      (ev ++ fr.1, fr.2)⟩

/-- A value universe containing integers and (args, kwargs) pairs, rich
enough to let a pre-transform return an argument pair as a value. -/
inductive PyV where
  | int : Int → PyV
  | pairAK : List PyV → List (String × PyV) → PyV

/-- An effectful callable returning how many positional arguments it
received. -/
def cntFunc : EffFunc PyV String :=
  ⟨"cnt", fun args _ => ([], some (PyV.int args.length))⟩

-- Concrete heaps for the class-wrapping claims.

/-- A heap holding one class A with a single method add (methods are plain
naturals here; the wrapper adds one, so wrapping is observable). -/
def heapA : Heap Nat := [⟨"A", [], [("add", 0)]⟩]

/-- A trivial method value for the Ops example heap. -/
def trivialFunc : PyFunc Int := PyFunc.ofBody [] (fun _ => none)

/-- A heap holding one class Ops with a single method foo. -/
def opsHeap : Heap (PyFunc Int) := [⟨"Ops", [], [("foo", trivialFunc)]⟩]

/-- A heap for the partial-wrapping witness: class A with methods f and g. -/
def heapFG : Heap Nat := [⟨"A", [], [("f", 10), ("g", 20)]⟩]

/-
Helper lemmas about association-list lookup, setEntry, collectBoundArgs and
the heap operations.
-/

theorem lookupStr_cons {A : Type} (k x : String) (v : A) (rest : List (String × A)) :
    List.lookup x ((k, v) :: rest) = if x = k then some v else List.lookup x rest := by
  by_cases hx : x = k
  · subst hx
    simp [List.lookup]
  · simp [List.lookup, beq_eq_false_iff_ne.mpr hx, hx]

theorem lookup_setEntry {A : Type} (d : List (String × A)) (k x : String) (v : A) :
    List.lookup x (setEntry d k v) = if x = k then some v else List.lookup x d := by
  induction d with
  | nil =>
    by_cases hx : x = k <;> simp [setEntry, lookupStr_cons, hx]
  | cons kv rest ih =>
    obtain ⟨k1, w⟩ := kv
    by_cases h1 : k1 = k
    · subst h1
      by_cases hx : x = k1 <;> simp [setEntry, lookupStr_cons, hx]
    · by_cases hx : x = k1
      · subst hx
        simp [setEntry, h1, lookupStr_cons]
      · simp [setEntry, h1, lookupStr_cons, hx, ih]

theorem lookup_eq_none_of_not_mem_keys {A : Type} {l : List (String × A)} {x : String}
    (h : x ∉ l.map Prod.fst) : List.lookup x l = none := by
  induction l with
  | nil => rfl
  | cons kv rest ih =>
    obtain ⟨k, v⟩ := kv
    simp only [List.map_cons, List.mem_cons] at h
    push_neg at h
    simp [lookupStr_cons, h.1, ih h.2]

theorem mem_keys_of_lookup_some {A : Type} {l : List (String × A)} {x : String} {v : A}
    (h : List.lookup x l = some v) : x ∈ l.map Prod.fst := by
  by_contra hx
  rw [lookup_eq_none_of_not_mem_keys hx] at h
  exact Option.noConfusion h

theorem collect_mem_paramNames {V : Type} (ps : List (Param V)) (args : List V)
    (kwargs : List (String × V)) :
    ∀ kv ∈ collectBoundArgs ps args kwargs, kv.1 ∈ paramNames ps := by
  induction ps generalizing args with
  | nil => intro kv hkv; simp [collectBoundArgs] at hkv
  | cons p ps ih =>
    intro kv hkv
    cases args with
    | cons a as =>
      simp only [collectBoundArgs, List.mem_cons] at hkv
      rcases hkv with h | h
      · subst h; simp [paramNames]
      · have := ih as kv h
        simp [paramNames] at this ⊢
        exact Or.inr this
    | nil =>
      simp only [collectBoundArgs] at hkv
      rcases hl : List.lookup p.name kwargs with _ | v
      · rw [hl] at hkv
        have := ih [] kv hkv
        simp [paramNames] at this ⊢
        exact Or.inr this
      · rw [hl] at hkv
        rcases List.mem_cons.mp hkv with h | h
        · subst h; simp [paramNames]
        · have := ih [] kv h
          simp [paramNames] at this ⊢
          exact Or.inr this

theorem collect_keys_not_mem {V : Type} (ps : List (Param V)) (args : List V)
    (kwargs : List (String × V)) (x : String) (hx : x ∉ paramNames ps) :
    List.lookup x (collectBoundArgs ps args kwargs) = none := by
  apply lookup_eq_none_of_not_mem_keys
  intro hmem
  rcases List.mem_map.mp hmem with ⟨kv, hkv, hfst⟩
  exact hx (hfst ▸ collect_mem_paramNames ps args kwargs kv hkv)

theorem collect_kwargs_cons_not_mem {V : Type} (ps : List (Param V)) (x : String) (v : V)
    (rest : List (String × V)) (hx : x ∉ paramNames ps) :
    collectBoundArgs ps [] ((x, v) :: rest) = collectBoundArgs ps [] rest := by
  induction ps with
  | nil => rfl
  | cons p ps ih =>
    simp only [paramNames, List.map_cons, List.mem_cons] at hx
    push_neg at hx
    have hne : (p.name == x) = false := beq_eq_false_iff_ne.mpr (Ne.symm hx.1)
    have ihe := ih (by simpa [paramNames] using hx.2)
    simp only [collectBoundArgs, List.lookup, hne, ihe]

theorem collect_rebind {V : Type} (ps : List (Param V)) (args : List V)
    (kwargs : List (String × V)) (hnd : (paramNames ps).Nodup) :
    collectBoundArgs ps [] (collectBoundArgs ps args kwargs) = collectBoundArgs ps args kwargs := by
  induction ps generalizing args with
  | nil => rfl
  | cons p ps ih =>
    simp only [paramNames, List.map_cons, List.nodup_cons] at hnd
    have hp : p.name ∉ paramNames ps := by simpa [paramNames] using hnd.1
    have hnd2 : (paramNames ps).Nodup := hnd.2
    cases args with
    | cons a as =>
      simp only [collectBoundArgs, List.lookup, beq_self_eq_true]
      rw [collect_kwargs_cons_not_mem ps p.name a _ hp, ih as hnd2]
    | nil =>
      rcases hl : List.lookup p.name kwargs with _ | v
      · simp only [collectBoundArgs, hl]
        have hnone : List.lookup p.name (collectBoundArgs ps [] kwargs) = none :=
          collect_keys_not_mem ps [] kwargs p.name hp
        simp only [collectBoundArgs, hnone]
        exact ih [] hnd2
      · simp only [collectBoundArgs, hl, List.lookup, beq_self_eq_true]
        rw [collect_kwargs_cons_not_mem ps p.name v _ hp, ih [] hnd2]

theorem collect_kwargsOnly_lookup_isSome {V : Type} (ps : List (Param V))
    (kwargs : List (String × V)) (x : String)
    (h : (List.lookup x (collectBoundArgs ps [] kwargs)).isSome = true) :
    (List.lookup x kwargs).isSome = true := by
  induction ps with
  | nil => simp [collectBoundArgs] at h
  | cons p ps ih =>
    simp only [collectBoundArgs] at h
    rcases hl : List.lookup p.name kwargs with _ | v
    · rw [hl] at h; exact ih h
    · rw [hl] at h
      by_cases hx : x = p.name
      · subst hx; rw [hl]; rfl
      · have hne : (x == p.name) = false := beq_eq_false_iff_ne.mpr hx
        simp only [List.lookup, hne] at h
        exact ih h

theorem collect_lookup_isSome {V : Type} (ps : List (Param V)) (args : List V)
    (kwargs : List (String × V)) (x : String)
    (h : (List.lookup x (collectBoundArgs ps args kwargs)).isSome = true) :
    x ∈ paramNames (ps.take args.length) ∨ (List.lookup x kwargs).isSome = true := by
  induction ps generalizing args with
  | nil => simp [collectBoundArgs] at h
  | cons p ps ih =>
    cases args with
    | nil => exact Or.inr (collect_kwargsOnly_lookup_isSome (p :: ps) kwargs x h)
    | cons a as =>
      by_cases hx : x = p.name
      · subst hx; simp [paramNames]
      · have hne : (x == p.name) = false := beq_eq_false_iff_ne.mpr hx
        simp only [collectBoundArgs, List.lookup, hne] at h
        rcases ih as h with hmem | hkw
        · exact Or.inl (by simp [paramNames] at hmem ⊢; exact Or.inr hmem)
        · exact Or.inr hkw

theorem bindCallArgs_eq_some {V : Type} {ps : List (Param V)} {args : List V}
    {kwargs m : List (String × V)} (h : bindCallArgs ps args kwargs = some m) :
    m = collectBoundArgs ps args kwargs := by
  unfold bindCallArgs at h
  split at h
  · exact (Option.some.injEq _ _ ▸ h).symm
  · exact Option.noConfusion h

theorem bindCallArgs_rebind {V : Type} {ps : List (Param V)} {args : List V}
    {kwargs m : List (String × V)} (hnd : (paramNames ps).Nodup)
    (h : bindCallArgs ps args kwargs = some m) :
    bindCallArgs ps [] m = some m := by
  have hm := bindCallArgs_eq_some h
  subst hm
  unfold bindCallArgs
  rw [if_pos]
  · rw [collect_rebind ps args kwargs hnd]
  · refine ⟨Nat.zero_le _, collect_mem_paramNames ps args kwargs, ?_⟩
    intro kv _
    simp [paramNames]

-- heap lemmas

theorem get?_setattrH_self {M : Type} (h : Heap M) (r : Nat) (attr : String) (v : M)
    (c : PyClassObj M) (hc : h.get? r = some c) :
    (setattrH h r attr v).get? r = some ⟨c.name, c.bases, setEntry c.dict attr v⟩ := by
  simp only [setattrH, hc]
  rw [List.get?_set_eq, hc]
  rfl

theorem get?_setattrH_ne {M : Type} (h : Heap M) {r r2 : Nat} (attr : String) (v : M)
    (hne : r2 ≠ r) : (setattrH h r attr v).get? r2 = h.get? r2 := by
  unfold setattrH
  rcases h.get? r with _ | c
  · rfl
  · exact List.get?_set_ne _ _ (Ne.symm hne)

theorem getattrH_eq {M : Type} (h : Heap M) (r : Nat) (attr : String) (c : PyClassObj M)
    (hc : h.get? r = some c) : getattrH h r attr = List.lookup attr c.dict := by
  unfold getattrH
  rw [hc]

theorem length_setattrH {M : Type} (h : Heap M) (r : Nat) (attr : String) (v : M) :
    (setattrH h r attr v).length = h.length := by
  unfold setattrH
  rcases h.get? r with _ | c
  · rfl
  · exact List.length_set _ _ _

/-
Loop lemmas for classWrapperLoop.  Throughout, base is the attribute dict of
the original class at the time wrap_class_methods was entered; the key
invariant is that both the original class (at clsRef) and the existence-check
class (at dRef: the copy, or the original again) always have exactly the keys
of base, because the loop only ever replaces values of existing keys.
-/

theorem classWrapperLoop_false_ok {M : Type} (clsRef dRef : Nat) (base : List (String × M))
    (spec : List (String × (M → M))) :
    ∀ (h : Heap M) (c d : PyClassObj M),
      h.get? clsRef = some c → h.get? dRef = some d →
      (∀ x, (List.lookup x c.dict).isSome = (List.lookup x base).isSome) →
      (∀ x, (List.lookup x d.dict).isSome = (List.lookup x base).isSome) →
      ∃ h2 c2 d2, classWrapperLoop clsRef dRef false spec h = (h2, Except.ok ()) ∧
        h2.get? clsRef = some c2 ∧ h2.get? dRef = some d2 ∧
        (∀ x, (List.lookup x c2.dict).isSome = (List.lookup x base).isSome) ∧
        (∀ x, (List.lookup x d2.dict).isSome = (List.lookup x base).isSome) := by
  induction spec with
  | nil =>
    intro h c d hc hd kc kd
    exact ⟨h, c, d, rfl, hc, hd, kc, kd⟩
  | cons mw rest ih =>
    obtain ⟨method, wrapper⟩ := mw
    intro h c d hc hd kc kd
    rcases hm : hasattrH h dRef method with _ | _
    · -- method absent: silently skip
      have hstep : classWrapperLoop clsRef dRef false ((method, wrapper) :: rest) h
          = classWrapperLoop clsRef dRef false rest h := by
        simp [classWrapperLoop, hm]
      rw [hstep]
      exact ih h c d hc hd kc kd
    · -- method present on d, hence on c: replace it on the original class
      have hdm : (List.lookup method d.dict).isSome = true := by
        unfold hasattrH at hm
        rw [getattrH_eq h dRef method d hd] at hm
        exact hm
      have hcm : (List.lookup method c.dict).isSome = true := by
        rw [kc method, ← kd method]
        exact hdm
      obtain ⟨v, hv⟩ := Option.isSome_iff_exists.mp hcm
      have hget : getattrH h clsRef method = some v := by
        rw [getattrH_eq h clsRef method c hc]
        exact hv
      have hbase : (List.lookup method base).isSome = true := by
        rw [← kc method]
        exact hcm
      have hc1 : (setattrH h clsRef method (wrapper v)).get? clsRef
          = some ⟨c.name, c.bases, setEntry c.dict method (wrapper v)⟩ :=
        get?_setattrH_self h clsRef method (wrapper v) c hc
      have kc1 : ∀ x, (List.lookup x (setEntry c.dict method (wrapper v))).isSome
          = (List.lookup x base).isSome := by
        intro x
        rw [lookup_setEntry]
        by_cases hx : x = method
        · simp [hx, hbase]
        · simp [hx, kc x]
      have dstep : ∃ d1, (setattrH h clsRef method (wrapper v)).get? dRef = some d1 ∧
          (∀ x, (List.lookup x d1.dict).isSome = (List.lookup x base).isSome) := by
        by_cases hdr : dRef = clsRef
        · subst hdr
          exact ⟨⟨c.name, c.bases, setEntry c.dict method (wrapper v)⟩, hc1, kc1⟩
        · refine ⟨d, ?_, kd⟩
          rw [get?_setattrH_ne h method (wrapper v) hdr]
          exact hd
      obtain ⟨d1, hd1, kd1⟩ := dstep
      have hstep : classWrapperLoop clsRef dRef false ((method, wrapper) :: rest) h
          = classWrapperLoop clsRef dRef false rest (setattrH h clsRef method (wrapper v)) := by
        simp [classWrapperLoop, hm, hget]
      rw [hstep]
      exact ih (setattrH h clsRef method (wrapper v)) _ d1 hc1 hd1 kc1 kd1

theorem classWrapperLoop_true_err {M : Type} (clsRef dRef : Nat) (base : List (String × M))
    (missing : String) (spec : List (String × (M → M))) :
    ∀ (h : Heap M) (c d : PyClassObj M),
      h.get? clsRef = some c → h.get? dRef = some d →
      (∀ x, (List.lookup x c.dict).isSome = (List.lookup x base).isSome) →
      (∀ x, (List.lookup x d.dict).isSome = (List.lookup x base).isSome) →
      (∃ wmiss, (missing, wmiss) ∈ spec) →
      List.lookup missing base = none →
      ∃ h2 e, classWrapperLoop clsRef dRef true spec h = (h2, Except.error e) := by
  induction spec with
  | nil =>
    intro h c d _ _ _ _ hmem _
    obtain ⟨wmiss, hw⟩ := hmem
    exact absurd hw (List.not_mem_nil _)
  | cons mw rest ih =>
    obtain ⟨method, wrapper⟩ := mw
    intro h c d hc hd kc kd hmem hmiss
    rcases hm : hasattrH h dRef method with _ | _
    · -- method absent and the error policy is on: raise now
      refine ⟨h, classNameAt h clsRef ++ " has no " ++ method ++ " method!", ?_⟩
      simp [classWrapperLoop, hm]
    · -- method present: it cannot be the missing one; step and recurse
      have hdm : (List.lookup method d.dict).isSome = true := by
        unfold hasattrH at hm
        rw [getattrH_eq h dRef method d hd] at hm
        exact hm
      have hcm : (List.lookup method c.dict).isSome = true := by
        rw [kc method, ← kd method]
        exact hdm
      obtain ⟨v, hv⟩ := Option.isSome_iff_exists.mp hcm
      have hget : getattrH h clsRef method = some v := by
        rw [getattrH_eq h clsRef method c hc]
        exact hv
      have hbase : (List.lookup method base).isSome = true := by
        rw [← kc method]
        exact hcm
      have hne : missing ≠ method := by
        intro hcontra
        rw [← hcontra, hmiss] at hbase
        exact Bool.noConfusion hbase
      obtain ⟨wmiss, hw⟩ := hmem
      have hw2 : (missing, wmiss) ∈ rest := by
        rcases List.mem_cons.mp hw with heq | htail
        · exact absurd (congrArg Prod.fst heq) hne
        · exact htail
      have hc1 : (setattrH h clsRef method (wrapper v)).get? clsRef
          = some ⟨c.name, c.bases, setEntry c.dict method (wrapper v)⟩ :=
        get?_setattrH_self h clsRef method (wrapper v) c hc
      have kc1 : ∀ x, (List.lookup x (setEntry c.dict method (wrapper v))).isSome
          = (List.lookup x base).isSome := by
        intro x
        rw [lookup_setEntry]
        by_cases hx : x = method
        · simp [hx, hbase]
        · simp [hx, kc x]
      have dstep : ∃ d1, (setattrH h clsRef method (wrapper v)).get? dRef = some d1 ∧
          (∀ x, (List.lookup x d1.dict).isSome = (List.lookup x base).isSome) := by
        by_cases hdr : dRef = clsRef
        · subst hdr
          exact ⟨⟨c.name, c.bases, setEntry c.dict method (wrapper v)⟩, hc1, kc1⟩
        · refine ⟨d, ?_, kd⟩
          rw [get?_setattrH_ne h method (wrapper v) hdr]
          exact hd
      obtain ⟨d1, hd1, kd1⟩ := dstep
      have hstep : classWrapperLoop clsRef dRef true ((method, wrapper) :: rest) h
          = classWrapperLoop clsRef dRef true rest (setattrH h clsRef method (wrapper v)) := by
        simp [classWrapperLoop, hm, hget]
      rw [hstep]
      exact ih (setattrH h clsRef method (wrapper v)) _ d1 hc1 hd1 kc1 kd1 ⟨wmiss, hw2⟩ hmiss

theorem classWrapperLoop_partway {M : Type} (clsRef dRef : Nat) (base : List (String × M))
    (missing : String) (wmiss : M → M) (rest : List (String × (M → M)))
    (pre : List (String × (M → M))) :
    ∀ (h : Heap M) (c d : PyClassObj M),
      h.get? clsRef = some c → h.get? dRef = some d →
      (∀ x, (List.lookup x c.dict).isSome = (List.lookup x base).isSome) →
      (∀ x, (List.lookup x d.dict).isSome = (List.lookup x base).isSome) →
      (∀ p ∈ pre, (List.lookup p.1 c.dict).isSome = true) →
      ((pre ++ (missing, wmiss) :: rest).map Prod.fst).Nodup →
      List.lookup missing base = none →
      ∃ h2 c2 e,
        classWrapperLoop clsRef dRef true (pre ++ (missing, wmiss) :: rest) h
          = (h2, Except.error e) ∧
        h2.get? clsRef = some c2 ∧
        (∀ p ∈ pre, ∃ v, List.lookup p.1 c.dict = some v ∧
          List.lookup p.1 c2.dict = some (p.2 v)) ∧
        (∀ x, x ∉ pre.map Prod.fst → List.lookup x c2.dict = List.lookup x c.dict) := by
  induction pre with
  | nil =>
    intro h c d hc hd kc kd _ _ hmiss
    have hdm : (List.lookup missing d.dict).isSome = false := by
      rw [kd missing, hmiss]
      rfl
    have hm : hasattrH h dRef missing = false := by
      unfold hasattrH
      rw [getattrH_eq h dRef missing d hd]
      exact hdm
    refine ⟨h, c, classNameAt h clsRef ++ " has no " ++ missing ++ " method!", ?_, hc, ?_, ?_⟩
    · simp [classWrapperLoop, hm]
    · intro p hp
      exact absurd hp (List.not_mem_nil p)
    · intro x _
      rfl
  | cons mw pre2 ih =>
    obtain ⟨method, wrapper⟩ := mw
    intro h c d hc hd kc kd hpre hnd hmiss
    have hcm : (List.lookup method c.dict).isSome = true :=
      hpre (method, wrapper) (List.mem_cons_self _ _)
    obtain ⟨v, hv⟩ := Option.isSome_iff_exists.mp hcm
    have hdm : (List.lookup method d.dict).isSome = true := by
      rw [kd method, ← kc method]
      exact hcm
    have hm : hasattrH h dRef method = true := by
      unfold hasattrH
      rw [getattrH_eq h dRef method d hd]
      exact hdm
    have hget : getattrH h clsRef method = some v := by
      rw [getattrH_eq h clsRef method c hc]
      exact hv
    have hbase : (List.lookup method base).isSome = true := by
      rw [← kc method]
      exact hcm
    -- Nodup bookkeeping: method heads the name list of the whole batch
    have hndmap : (method :: (pre2 ++ (missing, wmiss) :: rest).map Prod.fst).Nodup := by
      simpa using hnd
    have hmethod_nomem : method ∉ (pre2 ++ (missing, wmiss) :: rest).map Prod.fst :=
      (List.nodup_cons.mp hndmap).1
    have hnd2 : ((pre2 ++ (missing, wmiss) :: rest).map Prod.fst).Nodup :=
      (List.nodup_cons.mp hndmap).2
    have hmethod_nopre2 : method ∉ pre2.map Prod.fst := by
      intro hx
      exact hmethod_nomem (by simp [hx])
    -- one loop step
    have hc1 : (setattrH h clsRef method (wrapper v)).get? clsRef
        = some ⟨c.name, c.bases, setEntry c.dict method (wrapper v)⟩ :=
      get?_setattrH_self h clsRef method (wrapper v) c hc
    have kc1 : ∀ x, (List.lookup x (setEntry c.dict method (wrapper v))).isSome
        = (List.lookup x base).isSome := by
      intro x
      rw [lookup_setEntry]
      by_cases hx : x = method
      · simp [hx, hbase]
      · simp [hx, kc x]
    have dstep : ∃ d1, (setattrH h clsRef method (wrapper v)).get? dRef = some d1 ∧
        (∀ x, (List.lookup x d1.dict).isSome = (List.lookup x base).isSome) := by
      by_cases hdr : dRef = clsRef
      · subst hdr
        exact ⟨⟨c.name, c.bases, setEntry c.dict method (wrapper v)⟩, hc1, kc1⟩
      · refine ⟨d, ?_, kd⟩
        rw [get?_setattrH_ne h method (wrapper v) hdr]
        exact hd
    obtain ⟨d1, hd1, kd1⟩ := dstep
    have hpre2 : ∀ p ∈ pre2, (List.lookup p.1 (setEntry c.dict method (wrapper v))).isSome = true := by
      intro p hp
      rw [lookup_setEntry]
      by_cases hx : p.1 = method
      · simp [hx]
      · simp only [if_neg hx]
        exact hpre p (List.mem_cons_of_mem _ hp)
    have hstep : classWrapperLoop clsRef dRef true
          (((method, wrapper) :: pre2) ++ (missing, wmiss) :: rest) h
        = classWrapperLoop clsRef dRef true (pre2 ++ (missing, wmiss) :: rest)
            (setattrH h clsRef method (wrapper v)) := by
      simp [classWrapperLoop, hm, hget]
    obtain ⟨h2, c2, e, hloop, hc2, hvals, hpres⟩ :=
      ih (setattrH h clsRef method (wrapper v)) _ d1 hc1 hd1 kc1 kd1 hpre2 hnd2 hmiss
    refine ⟨h2, c2, e, ?_, hc2, ?_, ?_⟩
    · rw [hstep]
      exact hloop
    · intro p hp
      rcases List.mem_cons.mp hp with heq | htail
      · subst heq
        refine ⟨v, hv, ?_⟩
        have h1 : List.lookup method c2.dict
            = List.lookup method (setEntry c.dict method (wrapper v)) :=
          hpres method hmethod_nopre2
        rw [h1, lookup_setEntry, if_pos rfl]
      · obtain ⟨v1, hv1, hv2⟩ := hvals p htail
        have hxne : p.1 ≠ method := by
          intro hx
          exact hmethod_nopre2 (hx ▸ List.mem_map_of_mem Prod.fst htail)
        rw [lookup_setEntry, if_neg hxne] at hv1
        exact ⟨v1, hv1, hv2⟩
    · intro x hx
      have hx1 : x ≠ method := by
        intro hcontra
        exact hx (by simp [hcontra])
      have hx2 : x ∉ pre2.map Prod.fst := by
        intro hcontra
        exact hx (by simp [hcontra])
      rw [hpres x hx2, lookup_setEntry, if_neg hx1]

/-- Unfolding of wrap_class_methods, in-place variant: the loop checks and
writes on the given class itself. -/
theorem wrap_class_methods_false_eq {M : Type} (re : Bool) (spec : List (String × (M → M)))
    (clsRef : Nat) (h : Heap M) (cls : PyClassObj M) (hcls : h.get? clsRef = some cls) :
    wrap_class_methods false re spec clsRef h =
      match classWrapperLoop clsRef clsRef re spec h with
      | (h2, Except.ok _) => (h2, Except.ok clsRef)
      | (h2, Except.error e) => (h2, Except.error e) := by
  unfold wrap_class_methods
  rw [hcls]
  rfl

/-- Unfolding of wrap_class_methods, copy variant: a copy of the class is
appended to the heap, the loop checks existence on the copy while writing to
the original, and the reference of the copy is what gets returned. -/
theorem wrap_class_methods_true_eq {M : Type} (re : Bool) (spec : List (String × (M → M)))
    (clsRef : Nat) (h : Heap M) (cls : PyClassObj M) (hcls : h.get? clsRef = some cls) :
    wrap_class_methods true re spec clsRef h =
      match classWrapperLoop clsRef h.length re spec
          (h ++ [⟨"_" ++ cls.name, cls.bases, cls.dict⟩]) with
      | (h2, Except.ok _) => (h2, Except.ok h.length)
      | (h2, Except.error e) => (h2, Except.error e) := by
  unfold wrap_class_methods
  rw [hcls]
  rfl

/-
Claim theorems.
-/

/-- Claim C1, code evaluation at the failing input.  The claim says that
wrap_class_methods with a copy requested leaves every attribute of the
original class untouched.  The code does the opposite: wrapping class A
(method add = 0) with the wrapper (+1) returns the fresh copy at reference
1, but the copy still holds the UNWRAPPED method 0, while the original class
at reference 0 had its add attribute replaced by the wrapped method 1. -/
theorem C1_code_eval :
    wrap_class_methods true true [("add", fun x => x + 1)] 0 heapA
      = ([⟨"A", [], [("add", 1)]⟩, ⟨"_A", [], [("add", 0)]⟩], Except.ok 1) ∧
    getattrH heapA 0 "add" = some 0 ∧
    getattrH [⟨"A", [], [("add", 1)]⟩, ⟨"_A", [], [("add", 0)]⟩] 0 "add" = some 1 ∧
    getattrH [⟨"A", [], [("add", 1)]⟩, ⟨"_A", [], [("add", 0)]⟩] 1 "add" = some 0 :=
  ⟨rfl, rfl, rfl, rfl⟩

/-- Claim C2, code evaluation at the failing input.  The claim says the two
policy flags of wrap_class_methods_input_and_output are honoured.  The code
hardcodes both flags to true when delegating: with the error policy
explicitly disabled it still raises the missing-method ValueError for the
absent method bar, and with in-place explicitly requested it still returns a
fresh class object (reference 1, not the given reference 0). -/
theorem C2_code_eval :
    (wrap_class_methods_input_and_output false false [("bar", ⟨[], none⟩)] 0 opsHeap).2
      = Except.error "Ops has no bar method!" ∧
    (wrap_class_methods_input_and_output false true [("foo", ⟨[], none⟩)] 0 opsHeap).2
      = Except.ok 1 :=
  ⟨rfl, rfl⟩

/-- Claim C3, counterexample.  The claim says every declared parameter
omitted from the call but having a default is bound to that default in the
merged mapping.  For f(a, b, c=3) and the call merger([1], b=10), the
parameter c has default 3 and is omitted, yet the merged mapping is exactly
[a = 1, b = 10]: c is absent. -/
theorem C3_counterexample :
    mk_args_kwargs_merger exF [1] [("b", (10 : Int))] = some [("a", 1), ("b", 10)] ∧
    List.lookup "c" [("a", (1 : Int)), ("b", 10)] = none ∧
    exF.params = [⟨"a", none⟩, ⟨"b", none⟩, ⟨"c", some 3⟩] :=
  ⟨rfl, rfl, rfl⟩

/-- Claim C3, amended.  The merger returns a mapping containing only the
parameters actually supplied by the call: every name bound in the merged
mapping was supplied either positionally (it is among the first
args-many declared parameters) or as a keyword; parameters omitted from the
call are absent from the mapping even when they carry a declared default
(defaults are applied by the callable itself at invocation time, not by the
merger). -/
theorem C3_amended {V : Type} (ps : List (Param V)) (body : List (String × V) → Option V)
    (args : List V) (kwargs m : List (String × V))
    (h : mk_args_kwargs_merger (PyFunc.ofBody ps body) args kwargs = some m) (x : String)
    (hx : (List.lookup x m).isSome = true) :
    x ∈ paramNames (ps.take args.length) ∨ (List.lookup x kwargs).isSome = true := by
  unfold mk_args_kwargs_merger at h
  by_cases ha : 0 < args.length
  · rw [if_pos ha] at h
    have hm : m = collectBoundArgs ps args kwargs := bindCallArgs_eq_some h
    subst hm
    exact collect_lookup_isSome ps args kwargs x hx
  · rw [if_neg ha] at h
    injection h with h2
    subst h2
    exact Or.inr hx

/-- Claim C3, witness for the amended theorem at the counterexample input. -/
theorem C3_amended_witness :
    "a" ∈ paramNames (exParams.take 1) ∨ (List.lookup "a" [("b", (10 : Int))]).isSome = true :=
  C3_amended exParams exBody [1] [("b", 10)] [("a", 1), ("b", 10)] rfl "a" (by decide)

/-- The pre-transform of the C4 counterexample, in the code semantics: it
returns the value encoding the argument pair of an empty call. -/
def pre4code : List PyV → List (String × PyV) → List String × PyV :=
  fun _ _ => ([], PyV.pairAK [] [])

/-- The pre-transform of the C4 counterexample, in the semantics the claim
asserts: it returns the (args, kwargs) pair of an empty call. -/
def pre4claimed : List PyV → List (String × PyV) → List String × (List PyV × List (String × PyV)) :=
  fun _ _ => ([], ([], []))

/-- Claim C4, counterexample.  The claim says the pair the pre-transform
returns is substituted as the (args, kwargs) of the underlying call.  With a
pre-transform returning the empty-call pair and an underlying callable
counting its positional arguments, the code produces 1 (the pair value was
passed as the single positional argument) while the claimed substitution
semantics produces 0 - so the claimed semantics is not what the code does. -/
theorem C4_counterexample :
    (input_output_decorator (some pre4code) none cntFunc).call [] [] = ([], some (PyV.int 1)) ∧
    (input_output_decorator_claimedPre pre4claimed cntFunc).call [] [] = ([], some (PyV.int 0)) ∧
    PyV.int 1 ≠ PyV.int 0 := by
  refine ⟨rfl, rfl, ?_⟩
  intro hcontra
  injection hcontra with h2
  exact absurd h2 (by decide)

/-- Claim C4, amended.  The pre-transform receives the raw positional and
keyword arguments of every invocation, and the SINGLE value it returns is
passed to the underlying callable as its only positional argument (not
substituted as an (args, kwargs) pair); when a post-transform is also
present the order is strictly pre-transform, then the call, then
post-transform, with no short-circuiting - witnessed by the emitted event
trace being the concatenation of the three stages in that order. -/
theorem C4_amended {V E : Type} (pre : List V → List (String × V) → List E × V)
    (post : V → List E × V) (func : EffFunc V E) (args : List V) (kwargs : List (String × V))
    (e1 : List E) (v : V) (e2 : List E) (rv : V)
    (hpre : pre args kwargs = (e1, v))
    (hfunc : func.call [v] [] = (e2, some rv)) :
    (input_output_decorator (some pre) (some post) func).call args kwargs
      = (e1 ++ e2 ++ (post rv).1, some ((post rv).2)) := by
  simp [input_output_decorator, hpre, hfunc]

/-- Concrete pre-transform for the C4 witness. -/
def wPre : List Int → List (String × Int) → List String × Int := fun _ _ => (["pre"], 5)

/-- Concrete underlying callable for the C4 witness. -/
def wFunc : EffFunc Int String := ⟨"f", fun _ _ => (["body"], some 7)⟩

/-- Concrete post-transform for the C4 witness. -/
def wPost : Int → List String × Int := fun v => (["post"], v + 1)

/-- Claim C4, witness for the amended theorem: the wrapped call emits the
pre, body and post events in order and returns the post-transformed value. -/
theorem C4_witness :
    (input_output_decorator (some wPre) (some wPost) wFunc).call [3] []
      = (["pre", "body", "post"], some 8) := by
  have h := C4_amended wPre wPost wFunc [3] [] ["pre"] 5 ["body"] 7 rfl rfl
  simpa [wPost] using h

/-- Claim C5, confirmed.  Round trip of the argument merger: for a plain
def with declared parameters ps and body, and any split of a call into
positional and keyword arguments, calling with the keyword expansion of the
merged mapping is behaviourally equivalent to the direct call: both produce
the same value, and both fail exactly together (a binding failure in the
merger corresponds to the same failure in the direct call). -/
theorem C5_round_trip {V : Type} (ps : List (Param V)) (body : List (String × V) → Option V)
    (args : List V) (kwargs : List (String × V)) (hnd : (paramNames ps).Nodup) :
    Option.bind (mk_args_kwargs_merger (PyFunc.ofBody ps body) args kwargs)
        (fun m => (PyFunc.ofBody ps body).call [] m)
      = (PyFunc.ofBody ps body).call args kwargs := by
  cases args with
  | nil => rfl
  | cons a as =>
    have ha : 0 < (a :: as).length := Nat.succ_pos _
    rcases hb : bindCallArgs ps (a :: as) kwargs with _ | m
    · simp [mk_args_kwargs_merger, PyFunc.ofBody, fullBindArgs, hb, ha]
    · have hb2 : bindCallArgs ps [] m = some m := bindCallArgs_rebind hnd hb
      simp [mk_args_kwargs_merger, PyFunc.ofBody, fullBindArgs, hb, hb2, ha]

/-- Claim C5, witness: the round trip at the doctest function and the call
f(1, b=10). -/
theorem C5_witness :
    (paramNames exParams).Nodup ∧
    Option.bind (mk_args_kwargs_merger exF [1] [("b", (10 : Int))]) (fun m => exF.call [] m)
      = exF.call [1] [("b", 10)] :=
  ⟨by decide, C5_round_trip exParams exBody [1] [("b", 10)] (by decide)⟩

/-- Claim C6, counterexample.  The claim asserts that for f(a, b, c=3) =
a * (b + c) wrapped with the transform a = (x + 1), both wrapped(1, 2) and
wrapped(b=2, a=1) yield 8.  They in fact yield 10 = f(2, 2) = 2 * (2 + 3),
and 10 is not 8. -/
theorem C6_counterexample :
    (transform_args [("a", fun x : Int => x + 1)] exF).call [1, 2] [] = some 10 ∧
    (transform_args [("a", fun x : Int => x + 1)] exF).call [] [("b", 2), ("a", 1)] = some 10 ∧
    (10 : Int) ≠ 8 :=
  ⟨rfl, rfl, by decide⟩

/-- Claim C6, amended.  Call-site argument-order independence of
per-argument transforms holds: for every signature (a, b, c=default) with
any body and every transform g targeting a, the wrapped callable satisfies
wrapped(a0, b0) = f(g(a0), b0) and wrapped(b=b0, a=a0) = f(a=g(a0), b=b0);
in the concrete spec scenario (f = a * (b + c), g = x + 1) the calls
wrapped(1, 2) and wrapped(b=2, a=1) yield f(2, 2) = 10, not 8. -/
theorem C6_amended {V : Type} (d : V) (g : V → V) (body : List (String × V) → Option V)
    (a0 b0 : V) :
    (transform_args [("a", g)] (PyFunc.ofBody [⟨"a", none⟩, ⟨"b", none⟩, ⟨"c", some d⟩] body)).call
        [a0, b0] []
      = (PyFunc.ofBody [⟨"a", none⟩, ⟨"b", none⟩, ⟨"c", some d⟩] body).call [g a0, b0] [] ∧
    (transform_args [("a", g)] (PyFunc.ofBody [⟨"a", none⟩, ⟨"b", none⟩, ⟨"c", some d⟩] body)).call
        [] [("b", b0), ("a", a0)]
      = (PyFunc.ofBody [⟨"a", none⟩, ⟨"b", none⟩, ⟨"c", some d⟩] body).call []
          [("a", g a0), ("b", b0)] ∧
    (transform_args [("a", fun x : Int => x + 1)] exF).call [1, 2] [] = exF.call [2, 2] [] ∧
    (transform_args [("a", fun x : Int => x + 1)] exF).call [] [("b", 2), ("a", 1)]
      = exF.call [2, 2] [] ∧
    exF.call [2, 2] [] = some 10 :=
  ⟨rfl, rfl, rfl, rfl, rfl⟩

/-- Claim C7, confirmed.  When a batch names a method absent from the target
class, wrap_class_methods raises the missing-method error during
wrap-construction itself (the class wrapper never returns a class) if the
error policy is enabled; with the policy disabled, construction succeeds and
the entry for the absent method is skipped: the returned class still has no
attribute of that name. -/
theorem C7_missing_method {M : Type} (rc : Bool) (spec : List (String × (M → M)))
    (missing : String) (wmiss : M → M) (heap : Heap M) (clsRef : Nat) (cls : PyClassObj M)
    (hcls : heap.get? clsRef = some cls)
    (hmem : (missing, wmiss) ∈ spec)
    (hmiss : List.lookup missing cls.dict = none) :
    (∃ h2 e, wrap_class_methods rc true spec clsRef heap = (h2, Except.error e)) ∧
    (∃ h2 r, wrap_class_methods rc false spec clsRef heap = (h2, Except.ok r) ∧
      getattrH h2 r missing = none) := by
  cases rc with
  | false =>
    constructor
    · obtain ⟨h2, e, hloop⟩ := classWrapperLoop_true_err clsRef clsRef cls.dict missing spec
        heap cls cls hcls hcls (fun _ => rfl) (fun _ => rfl) ⟨wmiss, hmem⟩ hmiss
      refine ⟨h2, e, ?_⟩
      rw [wrap_class_methods_false_eq true spec clsRef heap cls hcls, hloop]
    · obtain ⟨h2, c2, d2, hloop, hc2, hd2, kc2, kd2⟩ := classWrapperLoop_false_ok clsRef clsRef
        cls.dict spec heap cls cls hcls hcls (fun _ => rfl) (fun _ => rfl)
      refine ⟨h2, clsRef, ?_, ?_⟩
      · rw [wrap_class_methods_false_eq false spec clsRef heap cls hcls, hloop]
      · rw [getattrH_eq h2 clsRef missing d2 hd2]
        have hk := kd2 missing
        rw [hmiss] at hk
        cases hl : List.lookup missing d2.dict with
        | none => rfl
        | some v =>
          rw [hl] at hk
          exact absurd hk (by simp)
  | true =>
    obtain ⟨hlt, -⟩ := List.get?_eq_some.mp hcls
    have hc1 : (heap ++ [(⟨"_" ++ cls.name, cls.bases, cls.dict⟩ : PyClassObj M)]).get? clsRef
        = some cls := by
      rw [List.get?_append hlt]
      exact hcls
    have hd1 : (heap ++ [(⟨"_" ++ cls.name, cls.bases, cls.dict⟩ : PyClassObj M)]).get? heap.length
        = some ⟨"_" ++ cls.name, cls.bases, cls.dict⟩ :=
      List.get?_concat_length heap _
    constructor
    · obtain ⟨h2, e, hloop⟩ := classWrapperLoop_true_err clsRef heap.length cls.dict missing spec
        (heap ++ [⟨"_" ++ cls.name, cls.bases, cls.dict⟩]) cls ⟨"_" ++ cls.name, cls.bases, cls.dict⟩
        hc1 hd1 (fun _ => rfl) (fun _ => rfl) ⟨wmiss, hmem⟩ hmiss
      refine ⟨h2, e, ?_⟩
      rw [wrap_class_methods_true_eq true spec clsRef heap cls hcls, hloop]
    · obtain ⟨h2, c2, d2, hloop, hc2, hd2, kc2, kd2⟩ := classWrapperLoop_false_ok clsRef
        heap.length cls.dict spec (heap ++ [⟨"_" ++ cls.name, cls.bases, cls.dict⟩]) cls
        ⟨"_" ++ cls.name, cls.bases, cls.dict⟩ hc1 hd1 (fun _ => rfl) (fun _ => rfl)
      refine ⟨h2, heap.length, ?_, ?_⟩
      · rw [wrap_class_methods_true_eq false spec clsRef heap cls hcls, hloop]
      · rw [getattrH_eq h2 heap.length missing d2 hd2]
        have hk := kd2 missing
        rw [hmiss] at hk
        cases hl : List.lookup missing d2.dict with
        | none => rfl
        | some v =>
          rw [hl] at hk
          exact absurd hk (by simp)

/-- Claim C7, witness: class A with methods f and g, a batch naming only the
absent method nope, in-place mode. -/
theorem C7_witness :
    (∃ h2 e, wrap_class_methods false true [("nope", fun x : Nat => x)] 0 heapFG
      = (h2, Except.error e)) ∧
    (∃ h2 r, wrap_class_methods false false [("nope", fun x : Nat => x)] 0 heapFG
      = (h2, Except.ok r) ∧ getattrH h2 r "nope" = none) :=
  C7_missing_method false [("nope", fun x : Nat => x)] "nope" (fun x => x) heapFG 0
    ⟨"A", [], [("f", 10), ("g", 20)]⟩ rfl (List.mem_singleton.mpr rfl) rfl

/-- Claim C8, confirmed.  No-op wrapping is the identity on the callable
itself: input_output_decorator with neither preprocess nor postprocess
returns the original callable, and transform_args with an empty
specification returns the original callable, so the result is observably
identical to the original for every call shape. -/
theorem C8_noop_identity (V E : Type) (f : PyFunc V) (g : EffFunc V E) :
    transform_args [] f = f ∧ input_output_decorator none none g = g :=
  ⟨rfl, rfl⟩

/-- Claim C9, confirmed.  Every invocation of a callable wrapped by the
call logger runs the sink exactly once, before the underlying body: the
event trace of the wrapped call is the events emitted by
logger(what_to_log(func, args, kwargs)) followed by the events of the
underlying call, whose result is returned unmodified; in the bounded
variant the receiver is excluded from what the formatter sees but still
passed to the underlying method.  The wrapper keeps the original name. -/
theorem C9_call_logger {V E A : Type} (logger : A → List E)
    (what_to_log : EffFunc V E → List V → List (String × V) → A) (func : EffFunc V E)
    (args : List V) (kwargs : List (String × V)) (selfv : V) :
    (mk_call_logger logger what_to_log false func).call args kwargs
      = (logger (what_to_log func args kwargs) ++ (func.call args kwargs).1,
         (func.call args kwargs).2) ∧
    (mk_call_logger logger what_to_log true func).call (selfv :: args) kwargs
      = (logger (what_to_log func args kwargs) ++ (func.call (selfv :: args) kwargs).1,
         (func.call (selfv :: args) kwargs).2) ∧
    (mk_call_logger logger what_to_log false func).name = func.name :=
  ⟨rfl, rfl, rfl⟩

/-- Claim C10, confirmed.  Wrap-construction failure is not atomic: when the
batch is earlier-existing entries followed by a missing method (error policy
on), wrap_class_methods raises the missing-method error AND every earlier
method has already been replaced on the class by its wrapped version in the
final heap, while attributes outside the earlier entries are untouched: the
class is left partially wrapped. -/
theorem C10_partial_wrap {M : Type} (rc : Bool) (pre rest : List (String × (M → M)))
    (missing : String) (wmiss : M → M) (heap : Heap M) (clsRef : Nat) (cls : PyClassObj M)
    (hcls : heap.get? clsRef = some cls)
    (hnd : ((pre ++ (missing, wmiss) :: rest).map Prod.fst).Nodup)
    (hpre : ∀ p ∈ pre, (List.lookup p.1 cls.dict).isSome = true)
    (hmiss : List.lookup missing cls.dict = none) :
    ∃ h2 c2 e,
      wrap_class_methods rc true (pre ++ (missing, wmiss) :: rest) clsRef heap
        = (h2, Except.error e) ∧
      h2.get? clsRef = some c2 ∧
      (∀ p ∈ pre, ∃ v, List.lookup p.1 cls.dict = some v ∧
        List.lookup p.1 c2.dict = some (p.2 v)) ∧
      (∀ x, x ∉ pre.map Prod.fst → List.lookup x c2.dict = List.lookup x cls.dict) := by
  cases rc with
  | false =>
    obtain ⟨h2, c2, e, hloop, hc2, hvals, hpres⟩ :=
      classWrapperLoop_partway clsRef clsRef cls.dict missing wmiss rest pre heap cls cls
        hcls hcls (fun _ => rfl) (fun _ => rfl) hpre hnd hmiss
    refine ⟨h2, c2, e, ?_, hc2, hvals, hpres⟩
    rw [wrap_class_methods_false_eq true (pre ++ (missing, wmiss) :: rest) clsRef heap cls hcls,
      hloop]
  | true =>
    obtain ⟨hlt, -⟩ := List.get?_eq_some.mp hcls
    have hc1 : (heap ++ [(⟨"_" ++ cls.name, cls.bases, cls.dict⟩ : PyClassObj M)]).get? clsRef
        = some cls := by
      rw [List.get?_append hlt]
      exact hcls
    have hd1 : (heap ++ [(⟨"_" ++ cls.name, cls.bases, cls.dict⟩ : PyClassObj M)]).get? heap.length
        = some ⟨"_" ++ cls.name, cls.bases, cls.dict⟩ :=
      List.get?_concat_length heap _
    obtain ⟨h2, c2, e, hloop, hc2, hvals, hpres⟩ :=
      classWrapperLoop_partway clsRef heap.length cls.dict missing wmiss rest pre
        (heap ++ [⟨"_" ++ cls.name, cls.bases, cls.dict⟩]) cls
        ⟨"_" ++ cls.name, cls.bases, cls.dict⟩ hc1 hd1 (fun _ => rfl) (fun _ => rfl)
        hpre hnd hmiss
    refine ⟨h2, c2, e, ?_, hc2, hvals, hpres⟩
    rw [wrap_class_methods_true_eq true (pre ++ (missing, wmiss) :: rest) clsRef heap cls hcls,
      hloop]

/-- Claim C10, witness: wrapping class A (methods f = 10, g = 20) with the
batch [f = (+1), nope = id] in-place raises, and afterwards f is already
wrapped (11) while g is untouched (20). -/
theorem C10_witness :
    ∃ h2 c2 e,
      wrap_class_methods false true
          ([("f", fun x : Nat => x + 1)] ++ ("nope", fun x : Nat => x) :: []) 0 heapFG
        = (h2, Except.error e) ∧
      h2.get? 0 = some c2 ∧
      (∀ p ∈ [("f", fun x : Nat => x + 1)], ∃ v,
        List.lookup p.1 [("f", (10 : Nat)), ("g", 20)] = some v ∧
        List.lookup p.1 c2.dict = some (p.2 v)) ∧
      (∀ x, x ∉ [("f", fun x : Nat => x + 1)].map Prod.fst →
        List.lookup x c2.dict = List.lookup x [("f", (10 : Nat)), ("g", 20)]) :=
  C10_partial_wrap false [("f", fun x : Nat => x + 1)] [] "nope" (fun x => x) heapFG 0
    ⟨"A", [], [("f", 10), ("g", 20)]⟩ rfl (by decide)
    (by
      rintro p hp
      rcases List.mem_singleton.mp hp with rfl
      rfl)
    rfl
